import Mathlib

/-!
Verification of the `svelteInspector` Vite plugin
(`custom-plugins/inspector/plugin.ts`).

Strings are modelled as `List Char` (`Str`); JavaScript string methods
(`indexOf`, `lastIndexOf`, `substring`, `replace`, `startsWith`, `endsWith`)
are modelled faithfully, including `substring`'s clamping and argument
swapping.  The plugin's closure state (`inspectorOptions`, `appendTo`,
`disabled`, `inspectorPath`) is an explicit `SessionState`, produced by
`configResolved`; every hook is a pure function of that state and its inputs.
-/

/-- Strings as character lists. -/
abbrev Str := List Char

/-- Turn a Lean string literal into a `Str`. -/
def str (s : String) : Str := s.toList

/-- JavaScript truthiness of a possibly-absent string: `undefined` and the
empty string are falsy. -/
def strTruthy : Option Str → Bool
  | none => false
  | some s => !s.isEmpty

/-- JavaScript `a || b` on a possibly-absent string. -/
def jsOrStr (a : Option Str) (b : Str) : Str :=
  match a with
  | some s => if s.isEmpty then b else s
  | none => b

/-- Index of the first occurrence of `c`, if any. -/
def firstIdx (c : Char) : Str → Option Nat
  | [] => none
  | d :: r => if d = c then some 0 else (firstIdx c r).map (· + 1)

/-- JavaScript `String.prototype.indexOf` for a single character: the index
of the first occurrence, `-1` when absent. -/
def jsIndexOf (s : Str) (c : Char) : Int :=
  match firstIdx c s with
  | some i => (i : Int)
  | none => -1

/-- JavaScript `String.prototype.lastIndexOf` for a single character. -/
def jsLastIndexOf (s : Str) (c : Char) : Int :=
  match firstIdx c s.reverse with
  | some i => (s.length - 1 - i : Int)
  | none => -1

/-- JavaScript `String.prototype.substring`: both arguments are clamped into
`[0, length]` and swapped when `start > end`. -/
def jsSubstring (s : Str) (st en : Int) : Str :=
  let n : Int := s.length
  let a := max 0 (min st n)
  let b := max 0 (min en n)
  let lo := min a b
  let hi := max a b
  (s.take hi.toNat).drop lo.toNat

/-- JavaScript `String.prototype.replace` with a plain-string pattern:
replaces the first occurrence only.  (The `$`-substitution patterns of the
replacement string are not modelled; the plugin's replacement is a
filesystem path.) -/
def jsReplaceFirst (pat repl : Str) : Str → Str
  | [] => if pat.isEmpty then repl else []
  | c :: r =>
    if pat.isPrefixOf (c :: r) then repl ++ (c :: r).drop pat.length
    else c :: jsReplaceFirst pat repl r

/-- The `navKeys` option object.  Each direction key may be absent, so that a
user-supplied partial object is representable. -/
structure NavKeys where
  parent : Option Str
  child : Option Str
  next : Option Str
  prev : Option Str
deriving DecidableEq

/-- The `InspectorOptions` record of `plugin.ts`.  Every field is optional,
as in the TypeScript interface; the two string-enum fields
(`showToggleButton`, `toggleButtonPos`) are modelled as strings, which is
their runtime representation. -/
structure InspectorOptions where
  toggleKeyCombo : Option Str
  navKeys : Option NavKeys
  openKey : Option Str
  holdMode : Option Bool
  showToggleButton : Option Str
  toggleButtonPos : Option Str
  customStyles : Option Bool
  appendTo : Option Str
deriving DecidableEq

/-- The empty options object `{}`. -/
def emptyInspectorOptions : InspectorOptions :=
  ⟨none, none, none, none, none, none, none, none⟩

/-- The record `defaultInspectorOptions` from `plugin.ts`; `isWin32` models
`process.platform === 'win32'`. -/
def defaultInspectorOptions (isWin32 : Bool) : InspectorOptions where
  toggleKeyCombo := some (if isWin32 then str "control-shift" else str "meta-shift")
  navKeys := some ⟨some (str "ArrowUp"), some (str "ArrowDown"),
    some (str "ArrowRight"), some (str "ArrowLeft")⟩
  openKey := some (str "Enter")
  holdMode := some false
  showToggleButton := some (str "active")
  toggleButtonPos := some (str "top-right")
  customStyles := some true
  appendTo := none

/-- JavaScript spread override for one field: the user's field wins when
present. -/
def jsOr {α : Type} (u d : Option α) : Option α :=
  match u with
  | some v => some v
  | none => d

/-- The shallow merge `{ ...d, ...u }` of two options objects: a top-level
object spread, so a present user field (including the whole `navKeys`
object) replaces the default wholesale. -/
def mergeOptions (d u : InspectorOptions) : InspectorOptions where
  toggleKeyCombo := jsOr u.toggleKeyCombo d.toggleKeyCombo
  navKeys := jsOr u.navKeys d.navKeys
  openKey := jsOr u.openKey d.openKey
  holdMode := jsOr u.holdMode d.holdMode
  showToggleButton := jsOr u.showToggleButton d.showToggleButton
  toggleButtonPos := jsOr u.toggleButtonPos d.toggleButtonPos
  customStyles := jsOr u.customStyles d.customStyles
  appendTo := jsOr u.appendTo d.appendTo

/-- The function `getInspectorPath` from `plugin.ts`, as a function of the plugin's own
directory (`normalizePath(path.dirname(fileURLToPath(import.meta.url)))`,
an environment input): the anchored regex replace rewrites a
`/vite-plugin-svelte/dist` suffix. -/
def getInspectorPath (pluginPath : Str) : Str :=
  if (str "/vite-plugin-svelte/dist").isSuffixOf pluginPath then
    pluginPath.take (pluginPath.length - (str "/vite-plugin-svelte/dist").length)
      ++ str "/vite-plugin-svelte/src/ui/inspector/"
  else pluginPath

/-- The constant `inspectorPath = getInspectorPath() + '/'`. -/
def inspectorPathOf (pluginPath : Str) : Str :=
  getInspectorPath pluginPath ++ str "/"

/-- Node's `path.basename` (posix): trailing slashes are dropped, then the
component after the last remaining slash is returned. -/
def basename (s : Str) : Str :=
  ((s.reverse.dropWhile (· = '/')).takeWhile (· ≠ '/')).reverse

/-- The `vps.api.options.kit` object, restricted to the field the plugin
reads. -/
structure KitConf where
  outDir : Option Str
deriving DecidableEq

/-- One entry of `config.plugins`.  The plugin only reads `name` and the
chain `api?.options?.experimental?.nvim_inspector` / `api.options.kit`,
which are flattened here: `nvim_inspector` is `none` when any link of the
optional chain is absent or the flag is falsy, and `some u` when it is a
truthy value spreading like the partial options object `u` (the literal
`true` of `svelte.config.js` spreads like `{}`). -/
structure PluginEntry where
  name : Str
  nvim_inspector : Option InspectorOptions
  kit : Option KitConf
deriving DecidableEq

/-- The resolved Vite config, restricted to what `configResolved` reads. -/
structure ResolvedConfig where
  plugins : List PluginEntry

/-- The plugin's closure state: `inspectorPath` (computed at plugin creation)
plus the three mutable fields set by `configResolved` and read by every
later hook. -/
structure SessionState where
  inspectorPath : Str
  inspectorOptions : Option InspectorOptions
  appendTo : Option Str
  disabled : Bool

/-- The SvelteKit default append target derived in `configResolved`:
`path.basename(kit.outDir || '.svelte-kit') + '/generated/root.svelte'`. -/
def kitDefaultAppendTo (kit : KitConf) : Str :=
  basename (jsOrStr kit.outDir (str ".svelte-kit")) ++ str "/generated/root.svelte"

/-- The merged options of a configured session: the user options spread
over the defaults, then — when the companion exposes a `kit` config and the
merge produced no truthy `appendTo` — the SvelteKit default append
target. -/
def mergedOf (isWin32 : Bool) (vps : PluginEntry) (user : InspectorOptions) :
    InspectorOptions :=
  let merged := mergeOptions (defaultInspectorOptions isWin32) user
  match vps.kit with
  | some kit =>
    if strTruthy merged.appendTo then merged
    else { merged with appendTo := some (kitDefaultAppendTo kit) }
  | none => merged

/-- The `configResolved` hook: find the `vite-plugin-svelte` companion
plugin, merge its `nvim_inspector` options over the defaults, disable the
session when either is missing, and otherwise derive a SvelteKit default
`appendTo` (`basename(outDir || '.svelte-kit') + '/generated/root.svelte'`)
when none was configured. -/
def configResolved (isWin32 : Bool) (pluginPath : Str)
    (config : ResolvedConfig) : SessionState :=
  let ipath := inspectorPathOf pluginPath
  match config.plugins.find? (fun p => p.name = str "vite-plugin-svelte") with
  | none => ⟨ipath, none, none, true⟩
  | some vps =>
    match vps.nvim_inspector with
    | none => ⟨ipath, none, none, true⟩
    | some user =>
      let merged := mergedOf isWin32 vps user
      ⟨ipath, some merged, merged.appendTo, false⟩

/-- The `resolveId` hook. -/
def resolveId (st : SessionState) (importee : Str) (ssr : Bool) : Option Str :=
  if ssr || st.disabled then none
  else if (str "virtual:svelte-inspector-options").isPrefixOf importee then
    some importee
  else if (str "virtual:svelte-inspector-path:").isPrefixOf importee then
    some (jsReplaceFirst (str "virtual:svelte-inspector-path:")
      st.inspectorPath importee)
  else none

/-- The file portion the websocket handler extracts:
`msg.substring(0, msg.indexOf(':'))`. -/
def wsFile (msg : Str) : Str := jsSubstring msg 0 (jsIndexOf msg ':')

/-- The row portion the websocket handler extracts:
`msg.substring(msg.indexOf(':') + 1, msg.lastIndexOf(':')) || '0'`. -/
def wsRow (msg : Str) : Str :=
  let row0 := jsSubstring msg (jsIndexOf msg ':' + 1) (jsLastIndexOf msg ':')
  if row0.isEmpty then str "0" else row0

/-- The two commands the `my:from-client` websocket handler executes for a
message payload (`data.msg ?? ''`): open the file in the remote nvim
session, then (in the first command's completion callback) send the row
jump. -/
def wsHandlerCommands (dataMsg : Option Str) : List Str :=
  let msg := dataMsg.getD []
  [str "nvim --server ~/.cache/nvim/server.pipe --remote " ++ wsFile msg,
   str "nvim --server ~/.cache/nvim/server.pipe --remote-send '"
     ++ wsRow msg ++ str "<s-g>'"]

/-- The event registrations `configureServer` performs on `server.ws`: one
`my:from-client` handler, registered whatever the session state is (the
hook never consults `disabled`). -/
def configureServerRegistrations ( _st : SessionState) :
    List (Str × (Option Str → List Str)) :=
  [(str "my:from-client", wsHandlerCommands)]

/-- The `transform` hook; `some code'` models returning `{ code: code' }`. -/
def transform (st : SessionState) (code id : Str) (ssr : Bool) : Option Str :=
  if ssr || st.disabled || !strTruthy st.appendTo then none
  else
    match st.appendTo with
    | some t =>
      if t.isSuffixOf id then
        some (code ++ str "\nimport 'virtual:svelte-inspector-path:load-inspector.js'")
      else none
    | none => none

/-- Lowercase hex digit, as emitted by `JSON.stringify`'s `\u00XX` escapes. -/
def hexDigitCh (n : Nat) : Char :=
  if n < 10 then Char.ofNat ('0'.toNat + n) else Char.ofNat ('a'.toNat + (n - 10))

/-- The `JSON.stringify` escaping of one character inside a string literal. -/
def escapeChar (c : Char) : Str :=
  if c = '"' then ['\\', '"']
  else if c = '\\' then ['\\', '\\']
  else if c = '\x08' then ['\\', 'b']
  else if c = '\x0c' then ['\\', 'f']
  else if c = '\n' then ['\\', 'n']
  else if c = '\r' then ['\\', 'r']
  else if c = '\t' then ['\\', 't']
  else if c.toNat < 32 then
    ['\\', 'u', '0', '0', hexDigitCh (c.toNat / 16), hexDigitCh (c.toNat % 16)]
  else [c]

/-- Escape a whole string body. -/
def escapeStr (s : Str) : Str := s.flatMap escapeChar

/-- A JSON string literal, quotes included. -/
def jstr (s : Str) : Str := '"' :: escapeStr s ++ ['"']

/-- The JSON values occurring in the serialized options object: strings,
booleans, and the nested `navKeys` object (whose values are all strings). -/
inductive JVal where
  | s : Str → JVal
  | b : Bool → JVal
  | o : List (Str × Str) → JVal
deriving DecidableEq

/-- Join rendered members with commas, as `JSON.stringify` does. -/
def joinComma : List Str → Str
  | [] => []
  | [x] => x
  | x :: y :: xs => x ++ ',' :: joinComma (y :: xs)

/-- Render one `"key":"value"` member of the nested `navKeys` object. -/
def renderSPair (p : Str × Str) : Str := jstr p.1 ++ ':' :: jstr p.2

/-- Render a JSON value. -/
def renderVal : JVal → Str
  | .s s => jstr s
  | .b true => str "true"
  | .b false => str "false"
  | .o ps => '{' :: joinComma (ps.map renderSPair) ++ ['}']

/-- Render one `"key":value` member of the top-level object. -/
def renderMember (p : Str × JVal) : Str := jstr p.1 ++ ':' :: renderVal p.2

/-- A present field contributes one member; an absent (`undefined`) field is
skipped by `JSON.stringify`. -/
def optEntry (k : Str) (v : Option JVal) : List (Str × JVal) :=
  match v with
  | some j => [(k, j)]
  | none => []

/-- Same, for the string-valued members of `navKeys`. -/
def optSEntry (k : Str) (v : Option Str) : List (Str × Str) :=
  match v with
  | some s => [(k, s)]
  | none => []

/-- The members of the serialized `navKeys` object, in field order. -/
def navToPairs (n : NavKeys) : List (Str × Str) :=
  optSEntry (str "parent") n.parent ++ optSEntry (str "child") n.child
    ++ optSEntry (str "next") n.next ++ optSEntry (str "prev") n.prev

/-- The members of the serialized options object, in the insertion order
produced by spreading the defaults first. -/
def toPairs (o : InspectorOptions) : List (Str × JVal) :=
  optEntry (str "toggleKeyCombo") (o.toggleKeyCombo.map JVal.s)
    ++ optEntry (str "navKeys") (o.navKeys.map (fun n => JVal.o (navToPairs n)))
    ++ optEntry (str "openKey") (o.openKey.map JVal.s)
    ++ optEntry (str "holdMode") (o.holdMode.map JVal.b)
    ++ optEntry (str "showToggleButton") (o.showToggleButton.map JVal.s)
    ++ optEntry (str "toggleButtonPos") (o.toggleButtonPos.map JVal.s)
    ++ optEntry (str "customStyles") (o.customStyles.map JVal.b)
    ++ optEntry (str "appendTo") (o.appendTo.map JVal.s)

/-- The serializer modelling `JSON.stringify(inspectorOptions)`. -/
def stringifyOptions (o : InspectorOptions) : Str :=
  '{' :: joinComma ((toPairs o).map renderMember) ++ ['}']

/-- Value of a hex digit, either case. -/
def hexValCh (c : Char) : Option Nat :=
  if '0' ≤ c ∧ c ≤ '9' then some (c.toNat - '0'.toNat)
  else if 'a' ≤ c ∧ c ≤ 'f' then some (c.toNat - 'a'.toNat + 10)
  else if 'A' ≤ c ∧ c ≤ 'F' then some (c.toNat - 'A'.toNat + 10)
  else none

/-- Decoding of a two-character JSON escape. -/
def unescCh (c : Char) : Option Char :=
  if c = '"' then some '"'
  else if c = '\\' then some '\\'
  else if c = '/' then some '/'
  else if c = 'b' then some '\x08'
  else if c = 'f' then some '\x0c'
  else if c = 'n' then some '\n'
  else if c = 'r' then some '\r'
  else if c = 't' then some '\t'
  else none

/-- Parse the body of a JSON string literal (opening quote already
consumed), returning the decoded body and the input after the closing
quote.  Fuel bounds the number of decoded characters. -/
def parseJStr : Nat → Str → Option (Str × Str)
  | 0, _ => none
  | _, [] => none
  | fuel + 1, c :: r =>
    if c = '"' then some ([], r)
    else if c = '\\' then
      match r with
      | [] => none
      | e :: r2 =>
        if e = 'u' then
          match r2 with
          | h1 :: h2 :: h3 :: h4 :: r3 =>
            match hexValCh h1, hexValCh h2, hexValCh h3, hexValCh h4 with
            | some a, some b, some c2, some d =>
              match parseJStr fuel r3 with
              | some (s, rest) =>
                some (Char.ofNat (a * 4096 + b * 256 + c2 * 16 + d) :: s, rest)
              | none => none
            | _, _, _, _ => none
          | _ => none
        else
          match unescCh e with
          | some d =>
            match parseJStr fuel r2 with
            | some (s, rest) => some (d :: s, rest)
            | none => none
          | none => none
    else
      match parseJStr fuel r with
      | some (s, rest) => some (c :: s, rest)
      | none => none

/-- String-literal body parse with sufficient fuel. -/
def parseJStrTop (l : Str) : Option (Str × Str) := parseJStr (l.length + 1) l

/-- Parse the members of a string-valued object (after its `{`). -/
def parseSMembers : Nat → Str → Option (List (Str × Str) × Str)
  | 0, _ => none
  | fuel + 1, l =>
    match l with
    | '}' :: r => some ([], r)
    | '"' :: r =>
      match parseJStrTop r with
      | some (k, r1) =>
        match r1 with
        | ':' :: '"' :: r2 =>
          match parseJStrTop r2 with
          | some (v, r3) =>
            match r3 with
            | ',' :: r4 =>
              match parseSMembers fuel r4 with
              | some (ps, r5) => some ((k, v) :: ps, r5)
              | none => none
            | '}' :: r4 => some ([(k, v)], r4)
            | _ => none
          | none => none
        | _ => none
      | none => none
    | _ => none

/-- Parse one JSON value of the payload grammar. -/
def parseVal (l : Str) : Option (JVal × Str) :=
  match l with
  | '"' :: r =>
    match parseJStrTop r with
    | some (s, r1) => some (JVal.s s, r1)
    | none => none
  | 't' :: 'r' :: 'u' :: 'e' :: r => some (JVal.b true, r)
  | 'f' :: 'a' :: 'l' :: 's' :: 'e' :: r => some (JVal.b false, r)
  | '{' :: r =>
    match parseSMembers (r.length + 1) r with
    | some (ps, r1) => some (JVal.o ps, r1)
    | none => none
  | _ => none

/-- Parse the members of the top-level object (after its `{`). -/
def parseMembers : Nat → Str → Option (List (Str × JVal) × Str)
  | 0, _ => none
  | fuel + 1, l =>
    match l with
    | '}' :: r => some ([], r)
    | '"' :: r =>
      match parseJStrTop r with
      | some (k, r1) =>
        match r1 with
        | ':' :: r2 =>
          match parseVal r2 with
          | some (v, r3) =>
            match r3 with
            | ',' :: r4 =>
              match parseMembers fuel r4 with
              | some (ps, r5) => some ((k, v) :: ps, r5)
              | none => none
            | '}' :: r4 => some ([(k, v)], r4)
            | _ => none
          | none => none
        | _ => none
      | none => none
    | _ => none

/-- Tags for the options fields, keyed by member name. -/
inductive FieldId where
  | toggleF | navF | openF | holdF | showF | posF | stylesF | appendF
deriving DecidableEq

/-- Which options field a member key denotes. -/
def fieldId (k : Str) : Option FieldId :=
  if k = str "toggleKeyCombo" then some .toggleF
  else if k = str "navKeys" then some .navF
  else if k = str "openKey" then some .openF
  else if k = str "holdMode" then some .holdF
  else if k = str "showToggleButton" then some .showF
  else if k = str "toggleButtonPos" then some .posF
  else if k = str "customStyles" then some .stylesF
  else if k = str "appendTo" then some .appendF
  else none

/-- Which `navKeys` field a member key denotes. -/
def navFieldId (k : Str) : Option (Fin 4) :=
  if k = str "parent" then some 0
  else if k = str "child" then some 1
  else if k = str "next" then some 2
  else if k = str "prev" then some 3
  else none

/-- Set one `navKeys` field from a parsed member. -/
def setNavField (n : NavKeys) (k v : Str) : NavKeys :=
  match navFieldId k with
  | some 0 => { n with parent := some v }
  | some 1 => { n with child := some v }
  | some 2 => { n with next := some v }
  | some 3 => { n with prev := some v }
  | none => n

/-- Build a `navKeys` object from parsed members. -/
def navOfPairs (ps : List (Str × Str)) : NavKeys :=
  ps.foldl (fun n p => setNavField n p.1 p.2) ⟨none, none, none, none⟩

/-- Set one options field from a parsed member (ignoring members of the
wrong shape, which the serializer never produces). -/
def setField (o : InspectorOptions) (k : Str) (v : JVal) : InspectorOptions :=
  match fieldId k, v with
  | some .toggleF, .s s => { o with toggleKeyCombo := some s }
  | some .navF, .o ps => { o with navKeys := some (navOfPairs ps) }
  | some .openF, .s s => { o with openKey := some s }
  | some .holdF, .b b => { o with holdMode := some b }
  | some .showF, .s s => { o with showToggleButton := some s }
  | some .posF, .s s => { o with toggleButtonPos := some s }
  | some .stylesF, .b b => { o with customStyles := some b }
  | some .appendF, .s s => { o with appendTo := some s }
  | _, _ => o

/-- Build an options object from parsed members. -/
def ofPairs (ps : List (Str × JVal)) : InspectorOptions :=
  ps.foldl (fun o p => setField o p.1 p.2) emptyInspectorOptions

/-- Parse the full text returned by `load` for the options virtual id: the
`export default ` prefix followed by one JSON object, reconstructing the
options record. -/
def parseOptionsPayload (l : Str) : Option InspectorOptions :=
  if (str "export default ").isPrefixOf l then
    match l.drop (str "export default ").length with
    | '{' :: r =>
      match parseMembers (r.length + 1) r with
      | some (ps, rest) => if rest.isEmpty then some (ofPairs ps) else none
      | none => none
    | _ => none
  else none

/-- The `load` hook.  The helper `idToFile` (from `src/utils`, not part of
this repository snapshot) maps a resolved id back to a filesystem path;
`fsys` models the filesystem, `fsys p = some c` meaning the file at `p`
exists with text content `c` (`fs.existsSync` + `fs.promises.readFile`). -/
def load (st : SessionState) (idToFile : Str → Str) (fsys : Str → Option Str)
    (id : Str) (ssr : Bool) : Option Str :=
  if ssr || st.disabled then none
  else if id = str "virtual:svelte-inspector-options" then
    some (str "export default "
      ++ stringifyOptions (st.inspectorOptions.getD emptyInspectorOptions))
  else if st.inspectorPath.isPrefixOf id then
    match fsys (idToFile id) with
    | some content => some content
    | none => none
  else none

/-- A Vite HTML tag descriptor, restricted to the fields the plugin emits. -/
structure HtmlTag where
  tag : Str
  injectTo : Str
  attrType : Str
  src : Str
deriving DecidableEq

/-- The `transformIndexHtml` hook: `some (html, tags)` models returning
`{ html, tags }`. -/
def transformIndexHtml (st : SessionState) (html : Str) :
    Option (Str × List HtmlTag) :=
  if st.disabled || strTruthy st.appendTo then none
  else
    some (html,
      [⟨str "script", str "body", str "module",
        str "/@id/virtual:svelte-inspector-path:load-inspector.js"⟩])

/-! ## Theorems -/

/-- C1. The claim fails: `configureServer` registers the `my:from-client`
handler without consulting `disabled`, and in a disabled session (companion
plugin absent, so `inspectorOptions` never set) that handler still performs
its two editor-command executions — not an inert no-op. -/
theorem c1_counterexample :
    (configureServerRegistrations ⟨str "/plug/", none, none, true⟩).map
      (fun r => r.2 (some (str "a:1:b")))
    = [[str "nvim --server ~/.cache/nvim/server.pipe --remote a",
        str "nvim --server ~/.cache/nvim/server.pipe --remote-send '1<s-g>'"]] := by
  decide

/-- C1 (amended): once `disabled` is true, the four module hooks
(`resolveId`, `load`, `transform`, `transformIndexHtml`) all return an inert
result (`undefined`) for every input — in particular no virtual module is
ever resolved — but the websocket handler registered by `configureServer`
is not gated on `disabled` and still executes editor commands. -/
theorem c1_disabled_hooks_noop (st : SessionState) (h : st.disabled = true) :
    (∀ importee ssr, resolveId st importee ssr = none)
    ∧ (∀ itf fsys id ssr, load st itf fsys id ssr = none)
    ∧ (∀ code id ssr, transform st code id ssr = none)
    ∧ (∀ html, transformIndexHtml st html = none) := by
  refine ⟨fun importee ssr => ?_, fun itf fsys id ssr => ?_,
    fun code id ssr => ?_, fun html => ?_⟩
  · simp [resolveId, h]
  · simp [load, h]
  · simp [transform, h]
  · simp [transformIndexHtml, h]

/-- C1 witness: the amended no-op property at a concrete disabled session. -/
theorem c1_witness :
    resolveId ⟨str "/plug/", none, none, true⟩
      (str "virtual:svelte-inspector-options") false = none
    ∧ transformIndexHtml ⟨str "/plug/", none, none, true⟩ (str "<html>") = none := by
  exact ⟨(c1_disabled_hooks_noop ⟨str "/plug/", none, none, true⟩ rfl).1 _ _,
    (c1_disabled_hooks_noop ⟨str "/plug/", none, none, true⟩ rfl).2.2.2 _⟩

/-- C5. Per session the two delivery strategies are mutually exclusive: when
an append target is configured (`appendTo` a truthy, i.e. non-empty,
string), `transformIndexHtml` never returns a tag; when it is not,
`transform` never returns a modified result for any file. -/
theorem c5_strategies_mutually_exclusive (st : SessionState) :
    (strTruthy st.appendTo = true → ∀ html, transformIndexHtml st html = none)
    ∧ (strTruthy st.appendTo = false →
        ∀ code id ssr, transform st code id ssr = none) := by
  constructor
  · intro h html
    simp [transformIndexHtml, h]
  · intro h code id ssr
    simp [transform, h]

/-- C5 witness: both directions at concrete sessions. -/
theorem c5_witness :
    transformIndexHtml
      ⟨str "/plug/", some emptyInspectorOptions, some (str "root.svelte"), false⟩
      (str "<html></html>") = none
    ∧ transform ⟨str "/plug/", some emptyInspectorOptions, none, false⟩
        (str "let x = 1") (str "src/App.svelte") false = none := by
  exact ⟨(c5_strategies_mutually_exclusive _).1 (by decide) _,
    (c5_strategies_mutually_exclusive _).2 (by decide) _ _ _⟩

/-- C7. In module-append mode (non-empty append target, enabled session,
non-SSR), `transform` appends exactly one import of the path virtual id for
`load-inspector.js` to the unchanged source of every file whose id ends
with the target suffix, and leaves every other file untouched. -/
theorem c7_transform_appends_import (st : SessionState) (t code id : Str)
    (h1 : st.disabled = false) (h2 : st.appendTo = some t) (h3 : t ≠ []) :
    (t.isSuffixOf id = true →
      transform st code id false
        = some (code ++ str "\nimport 'virtual:svelte-inspector-path:load-inspector.js'"))
    ∧ (t.isSuffixOf id = false → transform st code id false = none) := by
  have htr : strTruthy (some t) = true := by
    simp [strTruthy, List.isEmpty_iff, h3]
  constructor
  · intro hs
    simp [transform, h1, h2, htr, hs]
  · intro hs
    simp [transform, h1, h2, htr, hs]

/-- C7 witness: a matching and a non-matching file at a concrete session. -/
theorem c7_witness :
    transform ⟨str "/plug/", some emptyInspectorOptions, some (str "root.svelte"), false⟩
      (str "let x = 1") (str "/app/.svelte-kit/generated/root.svelte") false
      = some (str "let x = 1"
          ++ str "\nimport 'virtual:svelte-inspector-path:load-inspector.js'")
    ∧ transform ⟨str "/plug/", some emptyInspectorOptions, some (str "root.svelte"), false⟩
        (str "let x = 1") (str "src/App.svelte") false = none := by
  exact ⟨(c7_transform_appends_import _ _ _ _ rfl rfl (by decide)).1 (by decide),
    (c7_transform_appends_import _ _ _ _ rfl rfl (by decide)).2 (by decide)⟩

/-- C9. For every id beginning with the base directory (enabled session,
non-SSR, id distinct from the options virtual id), `load` returns the full
text content of the mapped file when it exists and `none` (a silent miss,
no exception) when it does not.  `idToFile` lives in `src/utils`, which is
not part of this snapshot, so the mapping is abstract here. -/
theorem c9_load_reads_mapped_file (st : SessionState) (itf : Str → Str)
    (fsys : Str → Option Str) (id : Str) (h1 : st.disabled = false)
    (h2 : st.inspectorPath.isPrefixOf id = true)
    (h3 : id ≠ str "virtual:svelte-inspector-options") :
    (∀ content, fsys (itf id) = some content →
      load st itf fsys id false = some content)
    ∧ (fsys (itf id) = none → load st itf fsys id false = none) := by
  constructor
  · intro content hc
    simp [load, h1, h2, h3, hc]
  · intro hc
    simp [load, h1, h2, h3, hc]

/-- C9 witness: a hit and a miss against a concrete one-file filesystem. -/
theorem c9_witness :
    load ⟨str "/plug/", some emptyInspectorOptions, none, false⟩ (fun id => id)
      (fun p => if p = str "/plug/load-inspector.js" then some (str "// code") else none)
      (str "/plug/load-inspector.js") false = some (str "// code")
    ∧ load ⟨str "/plug/", some emptyInspectorOptions, none, false⟩ (fun id => id)
        (fun p => if p = str "/plug/load-inspector.js" then some (str "// code") else none)
        (str "/plug/missing.js") false = none := by
  exact ⟨(c9_load_reads_mapped_file _ _ _ _ rfl (by decide) (by decide)).1 _ (by decide),
    (c9_load_reads_mapped_file _ _ _ _ rfl (by decide) (by decide)).2 (by decide)⟩

/-- C10. The configuration merge is a shallow top-level spread: a
user-supplied `navKeys` object replaces the default one wholesale, so the
merged `navKeys` is exactly the user object and the default values of
omitted direction keys are not retained (concretely, a user `navKeys` with
only `parent` yields a merged `navKeys` whose other three keys are
absent). -/
theorem c10_shallow_merge :
    (∀ (isWin32 : Bool) (u : InspectorOptions) (n : NavKeys),
      u.navKeys = some n →
      (mergeOptions (defaultInspectorOptions isWin32) u).navKeys = some n)
    ∧ (mergeOptions (defaultInspectorOptions false)
        { emptyInspectorOptions with
            navKeys := some ⟨some (str "w"), none, none, none⟩ }).navKeys
      = some ⟨some (str "w"), none, none, none⟩ := by
  constructor
  · intro isWin32 u n h
    simp [mergeOptions, jsOr, h]
  · decide

/-- C10 witness: the general conjunct at a concrete partial user object. -/
theorem c10_witness :
    (mergeOptions (defaultInspectorOptions true)
      { emptyInspectorOptions with
          navKeys := some ⟨none, some (str "s"), none, none⟩ }).navKeys
    = some ⟨none, some (str "s"), none, none⟩ := by
  exact c10_shallow_merge.1 true _ _ rfl

/-- When the pattern is a prefix of the subject, JavaScript `replace`
substitutes at position 0. -/
theorem jsReplaceFirst_of_isPrefixOf (pat repl s : Str)
    (h : pat.isPrefixOf s = true) :
    jsReplaceFirst pat repl s = repl ++ s.drop pat.length := by
  cases s with
  | nil =>
    cases pat with
    | nil => simp [jsReplaceFirst]
    | cons p ps => simp [List.isPrefixOf] at h
  | cons c r =>
    simp [jsReplaceFirst, h]

/-- C3. The claim fails: the options branch of `resolveId` is a prefix
match (`startsWith`), not an exact match, so an identifier that merely
extends the options id is still resolved to itself. -/
theorem c3_counterexample :
    resolveId ⟨str "/plug/", some emptyInspectorOptions, none, false⟩
      (str "virtual:svelte-inspector-optionsX") false
      = some (str "virtual:svelte-inspector-optionsX")
    ∧ str "virtual:svelte-inspector-optionsX" ≠ str "virtual:svelte-inspector-options" := by
  decide

/-- C3 (amended): in a non-disabled, non-SSR context the resolve hook
treats the options virtual id by prefix match: it returns the id itself
exactly when the identifier starts with
`"virtual:svelte-inspector-options"`, and any identifier matching neither
the options prefix nor the path prefix is not resolved at all. -/
theorem c3_options_prefix_resolution (st : SessionState)
    (h : st.disabled = false) :
    (∀ importee,
      (str "virtual:svelte-inspector-options").isPrefixOf importee = true →
      resolveId st importee false = some importee)
    ∧ (∀ importee,
        (str "virtual:svelte-inspector-options").isPrefixOf importee = false →
        (str "virtual:svelte-inspector-path:").isPrefixOf importee = false →
        resolveId st importee false = none) := by
  constructor
  · intro importee hp
    simp [resolveId, h, hp]
  · intro importee hp1 hp2
    simp [resolveId, h, hp1, hp2]

/-- C3 witness: the exact options id resolves to itself, and an unrelated
id is not handled. -/
theorem c3_witness :
    resolveId ⟨str "/plug/", some emptyInspectorOptions, none, false⟩
      (str "virtual:svelte-inspector-options") false
      = some (str "virtual:svelte-inspector-options")
    ∧ resolveId ⟨str "/plug/", some emptyInspectorOptions, none, false⟩
        (str "src/App.svelte") false = none := by
  exact ⟨(c3_options_prefix_resolution _ rfl).1 _ (by decide),
    (c3_options_prefix_resolution _ rfl).2 _ (by decide) (by decide)⟩

/-- C6. In a non-disabled, non-SSR context, resolving an identifier with
the path virtual prefix rewrites that prefix to the trailing-slash
terminated base directory (`getInspectorPath() + '/'`) and preserves the
remainder as a relative sub-path; in particular, for every phrasing of the
plugin's base directory, resolving
`"virtual:svelte-inspector-path:load-inspector.js"` yields exactly the base
directory, a slash, and `load-inspector.js`. -/
theorem c6_path_prefix_rewrite (pluginPath rest : Str) (st : SessionState)
    (h1 : st.disabled = false) (h2 : st.inspectorPath = inspectorPathOf pluginPath) :
    resolveId st (str "virtual:svelte-inspector-path:" ++ rest) false
      = some (inspectorPathOf pluginPath ++ rest)
    ∧ inspectorPathOf pluginPath = getInspectorPath pluginPath ++ str "/"
    ∧ (str "/").isSuffixOf (inspectorPathOf pluginPath) = true
    ∧ resolveId st (str "virtual:svelte-inspector-path:load-inspector.js") false
      = some ((getInspectorPath pluginPath ++ str "/") ++ str "load-inspector.js") := by
  have hopt : ∀ r : Str,
      (str "virtual:svelte-inspector-options").isPrefixOf
        (str "virtual:svelte-inspector-path:" ++ r) = false := fun r => rfl
  have hpath : ∀ r : Str,
      (str "virtual:svelte-inspector-path:").isPrefixOf
        (str "virtual:svelte-inspector-path:" ++ r) = true := fun r =>
    List.isPrefixOf_iff_prefix.2 (List.prefix_append _ _)
  have hres : ∀ r : Str,
      resolveId st (str "virtual:svelte-inspector-path:" ++ r) false
        = some (inspectorPathOf pluginPath ++ r) := by
    intro r
    have e1 := hopt r
    have e2 := hpath r
    simp only [resolveId, h1, Bool.or_false, Bool.false_or, e1, e2,
      Bool.false_eq_true, if_false, if_true]
    rw [jsReplaceFirst_of_isPrefixOf _ _ _ e2, List.drop_left, h2]
  refine ⟨hres rest, rfl, ?_, ?_⟩
  · exact List.isSuffixOf_iff_suffix.2 (List.suffix_append _ _)
  · have := hres (str "load-inspector.js")
    rw [show str "virtual:svelte-inspector-path:" ++ str "load-inspector.js"
        = str "virtual:svelte-inspector-path:load-inspector.js" from rfl] at this
    rw [this, inspectorPathOf]

/-- C6 witness: a concrete base directory without a trailing slash and one
(the rewritten `dist` layout) whose `getInspectorPath` result ends in a
slash. -/
theorem c6_witness :
    resolveId ⟨inspectorPathOf (str "/repo/custom-plugins/inspector"),
        some emptyInspectorOptions, none, false⟩
      (str "virtual:svelte-inspector-path:load-inspector.js") false
      = some ((getInspectorPath (str "/repo/custom-plugins/inspector") ++ str "/")
          ++ str "load-inspector.js")
    ∧ resolveId ⟨inspectorPathOf (str "/repo/node_modules/vite-plugin-svelte/dist"),
        some emptyInspectorOptions, none, false⟩
      (str "virtual:svelte-inspector-path:load-inspector.js") false
      = some ((getInspectorPath (str "/repo/node_modules/vite-plugin-svelte/dist")
          ++ str "/") ++ str "load-inspector.js") := by
  exact ⟨(c6_path_prefix_rewrite (str "/repo/custom-plugins/inspector")
      (str "load-inspector.js") _ rfl rfl).2.2.2,
    (c6_path_prefix_rewrite (str "/repo/node_modules/vite-plugin-svelte/dist")
      (str "load-inspector.js") _ rfl rfl).2.2.2⟩

/-- C8. During configuration, when the companion plugin is found with a
truthy `nvim_inspector` flag and a `kit` config, and the merged options
have no `appendTo`, the append target is set once to
`basename(kit.outDir || '.svelte-kit') + '/generated/root.svelte'` — in
particular `".svelte-kit/generated/root.svelte"` when no `outDir` is
configured. -/
theorem c8_kit_default_append_target (isWin32 : Bool) (pluginPath : Str)
    (cfg : ResolvedConfig) (vps : PluginEntry) (u : InspectorOptions)
    (kit : KitConf)
    (hfind : cfg.plugins.find? (fun p => p.name = str "vite-plugin-svelte") = some vps)
    (hni : vps.nvim_inspector = some u)
    (hkit : vps.kit = some kit)
    (happ : u.appendTo = none) :
    (configResolved isWin32 pluginPath cfg).appendTo
      = some (basename (jsOrStr kit.outDir (str ".svelte-kit"))
          ++ str "/generated/root.svelte")
    ∧ ((configResolved isWin32 pluginPath cfg).inspectorOptions.map
        (fun o => o.appendTo))
      = some (some (basename (jsOrStr kit.outDir (str ".svelte-kit"))
          ++ str "/generated/root.svelte"))
    ∧ (kit.outDir = none →
        (configResolved isWin32 pluginPath cfg).appendTo
          = some (str ".svelte-kit/generated/root.svelte")) := by
  have hmerged : (mergeOptions (defaultInspectorOptions isWin32) u).appendTo = none := by
    simp [mergeOptions, jsOr, happ, defaultInspectorOptions]
  have hmain : (configResolved isWin32 pluginPath cfg).appendTo
      = some (kitDefaultAppendTo kit)
      ∧ ((configResolved isWin32 pluginPath cfg).inspectorOptions.map
          (fun o => o.appendTo)) = some (some (kitDefaultAppendTo kit)) := by
    rw [configResolved, hfind]
    simp only [hni, mergedOf, hkit, hmerged, strTruthy]
    simp
  refine ⟨hmain.1, hmain.2, ?_⟩
  intro hout
  rw [hmain.1]
  simp only [kitDefaultAppendTo, jsOrStr, hout]
  decide

/-- C8 witness: a concrete config with a kit `outDir` and one without. -/
theorem c8_witness :
    (configResolved false (str "/plug")
      ⟨[⟨str "vite-plugin-svelte", some emptyInspectorOptions,
          some ⟨some (str "/app/.svelte-kit")⟩⟩]⟩).appendTo
      = some (basename (jsOrStr (some (str "/app/.svelte-kit")) (str ".svelte-kit"))
          ++ str "/generated/root.svelte")
    ∧ (configResolved false (str "/plug")
        ⟨[⟨str "vite-plugin-svelte", some emptyInspectorOptions, some ⟨none⟩⟩]⟩).appendTo
      = some (str ".svelte-kit/generated/root.svelte") := by
  exact ⟨(c8_kit_default_append_target false (str "/plug")
      ⟨[⟨str "vite-plugin-svelte", some emptyInspectorOptions,
          some ⟨some (str "/app/.svelte-kit")⟩⟩]⟩
      ⟨str "vite-plugin-svelte", some emptyInspectorOptions,
        some ⟨some (str "/app/.svelte-kit")⟩⟩
      emptyInspectorOptions ⟨some (str "/app/.svelte-kit")⟩
      (by decide) rfl rfl rfl).1,
    (c8_kit_default_append_target false (str "/plug")
      ⟨[⟨str "vite-plugin-svelte", some emptyInspectorOptions, some ⟨none⟩⟩]⟩
      ⟨str "vite-plugin-svelte", some emptyInspectorOptions, some ⟨none⟩⟩
      emptyInspectorOptions ⟨none⟩
      (by decide) rfl rfl rfl).2.2 rfl⟩

/-- The function `firstIdx` misses a list not containing the character. -/
theorem firstIdx_of_not_mem (c : Char) (a : Str) (h : c ∉ a) :
    firstIdx c a = none := by
  induction a with
  | nil => rfl
  | cons d t ih =>
    have hd : ¬d = c := fun e => h (e ▸ List.mem_cons_self d t)
    have ht : c ∉ t := fun e => h (List.mem_cons_of_mem d e)
    simp [firstIdx, hd, ih ht]

/-- The function `firstIdx` finds the first occurrence after a clean prefix. -/
theorem firstIdx_append (c : Char) (a b : Str) (h : c ∉ a) :
    firstIdx c (a ++ c :: b) = some a.length := by
  induction a with
  | nil => simp [firstIdx]
  | cons d t ih =>
    have hd : ¬d = c := fun e => h (e ▸ List.mem_cons_self d t)
    have ht : c ∉ t := fun e => h (List.mem_cons_of_mem d e)
    simp [firstIdx, hd, ih ht]

/-- JavaScript `indexOf` after a clean prefix. -/
theorem jsIndexOf_append (c : Char) (a b : Str) (h : c ∉ a) :
    jsIndexOf (a ++ c :: b) c = (a.length : Int) := by
  rw [jsIndexOf, firstIdx_append c a b h]

/-- JavaScript `lastIndexOf` before a clean suffix. -/
theorem jsLastIndexOf_append (c : Char) (l b : Str) (h : c ∉ b) :
    jsLastIndexOf (l ++ c :: b) c = (l.length : Int) := by
  have hrev : (l ++ c :: b).reverse = b.reverse ++ c :: l.reverse := by
    simp
  have hb : c ∉ b.reverse := by simpa using h
  rw [jsLastIndexOf, hrev, firstIdx_append c b.reverse l.reverse hb]
  simp only [List.length_append, List.length_cons, List.length_reverse]
  push_cast
  omega

/-- JavaScript `substring` with ordered in-range arguments is take-then-drop. -/
theorem jsSubstring_of_le (s : Str) (st en : Int) (h0 : 0 ≤ st) (h1 : st ≤ en)
    (h2 : en ≤ (s.length : Int)) :
    jsSubstring s st en = (s.take en.toNat).drop st.toNat := by
  simp only [jsSubstring]
  rw [show max 0 (min st (s.length : Int)) = st by omega,
    show max 0 (min en (s.length : Int)) = en by omega,
    min_eq_left h1, max_eq_right h1]

/-- JavaScript `substring` swaps its arguments when `start > end`. -/
theorem jsSubstring_comm (s : Str) (st en : Int) :
    jsSubstring s st en = jsSubstring s en st := by
  simp only [jsSubstring]
  rw [min_comm (max 0 (min st (s.length : Int))) (max 0 (min en (s.length : Int))),
    max_comm (max 0 (min st (s.length : Int))) (max 0 (min en (s.length : Int)))]

/-- The extracted file portion is the text before the first colon, whenever
a colon exists. -/
theorem wsFile_append (a t : Str) (ha : ':' ∉ a) :
    wsFile (a ++ ':' :: t) = a := by
  rw [wsFile, jsIndexOf_append ':' a t ha,
    jsSubstring_of_le _ _ _ le_rfl (by positivity)
      (by simp only [List.length_append, List.length_cons]; push_cast; omega)]
  rw [Int.toNat_natCast, Int.toNat_zero, List.drop_zero,
    List.take_left' rfl]

/-- The extracted row portion with at least two colons: the text strictly
between the first and the last colon, with `"0"` substituted when empty. -/
theorem wsRow_two_colon (a m b : Str) (ha : ':' ∉ a) (hb : ':' ∉ b) :
    wsRow (a ++ ':' :: (m ++ ':' :: b)) = if m.isEmpty then str "0" else m := by
  have hshape : a ++ ':' :: (m ++ ':' :: b) = (a ++ ':' :: m) ++ ':' :: b := by
    simp
  have hidx : jsIndexOf (a ++ ':' :: (m ++ ':' :: b)) ':' = (a.length : Int) :=
    jsIndexOf_append ':' a _ ha
  have hlast : jsLastIndexOf (a ++ ':' :: (m ++ ':' :: b)) ':'
      = ((a ++ ':' :: m).length : Int) := by
    rw [hshape]
    exact jsLastIndexOf_append ':' _ b hb
  have hrow0 : jsSubstring (a ++ ':' :: (m ++ ':' :: b)) ((a.length : Int) + 1)
      ((a ++ ':' :: m).length : Int) = m := by
    rw [jsSubstring_of_le _ _ _ (by positivity)
      (by simp only [List.length_append, List.length_cons]; push_cast; omega)
      (by simp only [List.length_append, List.length_cons]; push_cast; omega)]
    rw [Int.toNat_natCast, show ((a.length : Int) + 1).toNat = a.length + 1 by omega]
    rw [hshape, List.take_left' rfl,
      show a ++ ':' :: m = (a ++ [':']) ++ m by simp,
      List.drop_left' (by simp)]
  simp only [wsRow]
  rw [hidx, hlast, hrow0]

/-- The extracted row portion with exactly one colon: `substring` swaps its
arguments and yields the colon itself, which is truthy, so the row is
`":"`. -/
theorem wsRow_one_colon (a b : Str) (ha : ':' ∉ a) (hb : ':' ∉ b) :
    wsRow (a ++ ':' :: b) = str ":" := by
  have hidx : jsIndexOf (a ++ ':' :: b) ':' = (a.length : Int) :=
    jsIndexOf_append ':' a b ha
  have hlast : jsLastIndexOf (a ++ ':' :: b) ':' = (a.length : Int) :=
    jsLastIndexOf_append ':' a b hb
  have hrow0 : jsSubstring (a ++ ':' :: b) ((a.length : Int) + 1)
      (a.length : Int) = [':'] := by
    rw [jsSubstring_comm, jsSubstring_of_le _ _ _ (by positivity) (by omega)
      (by simp only [List.length_append, List.length_cons]; push_cast; omega)]
    rw [Int.toNat_natCast, show ((a.length : Int) + 1).toNat = (a ++ [':']).length by simp,
      show a ++ ':' :: b = (a ++ [':']) ++ b by simp,
      List.take_left' rfl, List.drop_left' (by simp)]
  simp only [wsRow]
  rw [hidx, hlast, hrow0]
  rfl

/-- C2. The claim fails on its own no-colon example: `indexOf` returns
`-1`, so `substring(0, -1)` clamps to `substring(0, 0)` and the extracted
file is the empty string, not the whole message. -/
theorem c2_counterexample :
    wsFile (str "onlyfile") = [] ∧ wsFile (str "onlyfile") ≠ str "onlyfile" := by
  decide

/-- C2 (amended): with at least two colons, the file is the text before the
first colon and the row is the text strictly between the first and last
colon, `"0"` substituted when that segment is empty; with exactly one
colon the row is `":"` (swapped `substring`); with no colon the file is
`""` (not the whole message) and the row is `"0"`.  The claim's first
concrete example holds as stated. -/
theorem c2_amended_payload_parse :
    (∀ a m b : Str, ':' ∉ a → ':' ∉ b →
      wsFile (a ++ ':' :: (m ++ ':' :: b)) = a
      ∧ wsRow (a ++ ':' :: (m ++ ':' :: b)) = (if m.isEmpty then str "0" else m))
    ∧ (∀ a b : Str, ':' ∉ a → ':' ∉ b →
      wsFile (a ++ ':' :: b) = a ∧ wsRow (a ++ ':' :: b) = str ":")
    ∧ (wsFile (str "src/App.svelte:42:extra") = str "src/App.svelte"
      ∧ wsRow (str "src/App.svelte:42:extra") = str "42")
    ∧ (wsFile (str "onlyfile") = [] ∧ wsRow (str "onlyfile") = str "0") := by
  refine ⟨fun a m b ha hb => ⟨wsFile_append a _ ha, wsRow_two_colon a m b ha hb⟩,
    fun a b ha hb => ⟨wsFile_append a b ha, wsRow_one_colon a b ha hb⟩,
    by decide, by decide⟩

/-- C2 witness: the general conjuncts at concrete messages. -/
theorem c2_witness :
    (wsFile (str "x" ++ ':' :: (str "7" ++ ':' :: str "y")) = str "x"
      ∧ wsRow (str "x" ++ ':' :: (str "7" ++ ':' :: str "y"))
        = (if (str "7").isEmpty then str "0" else str "7"))
    ∧ (wsFile (str "f" ++ ':' :: str "42") = str "f"
      ∧ wsRow (str "f" ++ ':' :: str "42") = str ":") := by
  exact ⟨c2_amended_payload_parse.1 (str "x") (str "7") (str "y")
      (by decide) (by decide),
    c2_amended_payload_parse.2.1 (str "f") (str "42") (by decide) (by decide)⟩

/-- Decoding a hex digit emitted by the serializer recovers its value. -/
theorem hexVal_hexDigit : ∀ m : Nat, m < 16 → hexValCh (hexDigitCh m) = some m := by
  decide

/-- One serializer escape step is undone by one parser step. -/
theorem parseJStr_esc_step (c : Char) (tail : Str) (f : Nat) :
    parseJStr (f + 1) (escapeChar c ++ tail)
      = match parseJStr f tail with
        | some (s, rest) => some (c :: s, rest)
        | none => none := by
  by_cases h1 : c = '"'
  · subst h1; rfl
  by_cases h2 : c = '\\'
  · subst h2; rfl
  by_cases h3 : c = '\x08'
  · subst h3; rfl
  by_cases h4 : c = '\x0c'
  · subst h4; rfl
  by_cases h5 : c = '\n'
  · subst h5; rfl
  by_cases h6 : c = '\r'
  · subst h6; rfl
  by_cases h7 : c = '\t'
  · subst h7; rfl
  by_cases h8 : c.toNat < 32
  · have he : escapeChar c
        = ['\\', 'u', '0', '0', hexDigitCh (c.toNat / 16), hexDigitCh (c.toNat % 16)] := by
      simp only [escapeChar, if_neg h1, if_neg h2, if_neg h3, if_neg h4, if_neg h5,
        if_neg h6, if_neg h7, if_pos h8]
    rw [he]
    have hstep : parseJStr (f + 1)
        ('\\' :: 'u' :: '0' :: '0' :: hexDigitCh (c.toNat / 16)
          :: hexDigitCh (c.toNat % 16) :: tail)
        = match hexValCh '0', hexValCh '0', hexValCh (hexDigitCh (c.toNat / 16)),
            hexValCh (hexDigitCh (c.toNat % 16)) with
          | some a, some b, some c2, some d =>
            (match parseJStr f tail with
            | some (s, rest) =>
              some (Char.ofNat (a * 4096 + b * 256 + c2 * 16 + d) :: s, rest)
            | none => none)
          | _, _, _, _ => none := rfl
    rw [show ('\\' :: 'u' :: '0' :: '0' :: hexDigitCh (c.toNat / 16)
        :: hexDigitCh (c.toNat % 16) :: []) ++ tail
        = '\\' :: 'u' :: '0' :: '0' :: hexDigitCh (c.toNat / 16)
          :: hexDigitCh (c.toNat % 16) :: tail from rfl]
    rw [hstep, hexVal_hexDigit _ (by omega), hexVal_hexDigit _ (by omega),
      show hexValCh '0' = some 0 from rfl]
    dsimp only
    rw [show (0 * 4096 + 0 * 256 + (c.toNat / 16) * 16 + c.toNat % 16) = c.toNat by
      omega, Char.ofNat_toNat]
  · have he : escapeChar c = [c] := by
      simp only [escapeChar, if_neg h1, if_neg h2, if_neg h3, if_neg h4, if_neg h5,
        if_neg h6, if_neg h7, if_neg h8]
    rw [he, List.singleton_append]
    simp [parseJStr, h1, h2]

/-- Parsing an escaped body followed by a closing quote recovers the body,
given enough fuel. -/
theorem parseJStr_round (s : Str) : ∀ (fuel : Nat) (rest : Str), s.length < fuel →
    parseJStr fuel (escapeStr s ++ '"' :: rest) = some (s, rest) := by
  induction s with
  | nil =>
    intro fuel rest h
    cases fuel with
    | zero => omega
    | succ f => rfl
  | cons c t ih =>
    intro fuel rest h
    cases fuel with
    | zero => omega
    | succ f =>
      have he : escapeStr (c :: t) ++ '"' :: rest
          = escapeChar c ++ (escapeStr t ++ '"' :: rest) := by
        simp [escapeStr]
      rw [he, parseJStr_esc_step,
        ih f rest (by simp only [List.length_cons] at h; omega)]

/-- Escaping never shortens a string. -/
theorem escapeStr_length (s : Str) : s.length ≤ (escapeStr s).length := by
  induction s with
  | nil => simp [escapeStr]
  | cons c t ih =>
    have h1 : 1 ≤ (escapeChar c).length := by
      unfold escapeChar
      split_ifs <;> simp
    have he : escapeStr (c :: t) = escapeChar c ++ escapeStr t := by
      simp [escapeStr]
    rw [he]
    simp only [List.length_append, List.length_cons]
    omega

/-- The fuel chosen by `parseJStrTop` always suffices. -/
theorem parseJStrTop_round (s rest : Str) :
    parseJStrTop (escapeStr s ++ '"' :: rest) = some (s, rest) := by
  rw [parseJStrTop]
  apply parseJStr_round
  have := escapeStr_length s
  simp only [List.length_append, List.length_cons]
  omega

/-- Comma-joining lists of positive length never shortens below the count. -/
theorem joinComma_length (xs : List Str) (h : ∀ x ∈ xs, 1 ≤ x.length) :
    xs.length ≤ (joinComma xs).length := by
  induction xs with
  | nil => simp [joinComma]
  | cons x t ih =>
    cases t with
    | nil =>
      simpa [joinComma] using h x (List.mem_cons_self x [])
    | cons y ts =>
      have hx : 1 ≤ x.length := h x (List.mem_cons_self x (y :: ts))
      have ht : (y :: ts).length ≤ (joinComma (y :: ts)).length :=
        ih (fun z hz => h z (List.mem_cons_of_mem x hz))
      rw [show joinComma (x :: y :: ts) = x ++ ',' :: joinComma (y :: ts) from rfl]
      simp only [List.length_append, List.length_cons] at ht ⊢
      omega

/-- Each rendered `navKeys` member is nonempty. -/
theorem renderSPair_length (p : Str × Str) : 1 ≤ (renderSPair p).length := by
  simp [renderSPair, jstr]

/-- Each rendered top-level member is nonempty. -/
theorem renderMember_length (p : Str × JVal) : 1 ≤ (renderMember p).length := by
  simp [renderMember, jstr]

/-- Parsing the rendered members of a string-valued object recovers them,
given enough fuel. -/
theorem parseSMembers_round (ps : List (Str × Str)) :
    ∀ (fuel : Nat) (rest : Str), ps.length < fuel →
    parseSMembers fuel (joinComma (ps.map renderSPair) ++ '}' :: rest)
      = some (ps, rest) := by
  induction ps with
  | nil =>
    intro fuel rest h
    cases fuel with
    | zero => omega
    | succ f => rfl
  | cons p t ih =>
    intro fuel rest h
    cases fuel with
    | zero => omega
    | succ f =>
      have step : ∀ r, parseSMembers (f + 1) ('"' :: r)
          = match parseJStrTop r with
            | some (k, r1) =>
              (match r1 with
              | ':' :: '"' :: r2 =>
                (match parseJStrTop r2 with
                | some (v, r3) =>
                  (match r3 with
                  | ',' :: r4 =>
                    (match parseSMembers f r4 with
                    | some (ps, r5) => some ((k, v) :: ps, r5)
                    | none => none)
                  | '}' :: r4 => some ([(k, v)], r4)
                  | _ => none)
                | none => none)
              | _ => none)
            | none => none := fun r => rfl
      cases t with
      | nil =>
        have hshape : joinComma (([p].map renderSPair)) ++ '}' :: rest
            = '"' :: (escapeStr p.1
              ++ '"' :: ':' :: '"' :: (escapeStr p.2 ++ '"' :: '}' :: rest)) := by
          simp [joinComma, renderSPair, jstr]
        rw [hshape, step]
        simp [parseJStrTop_round]
      | cons q ts =>
        have hshape : joinComma ((p :: q :: ts).map renderSPair) ++ '}' :: rest
            = '"' :: (escapeStr p.1 ++ '"' :: ':' :: '"' :: (escapeStr p.2
              ++ '"' :: ',' :: (joinComma ((q :: ts).map renderSPair)
                ++ '}' :: rest))) := by
          simp [joinComma, renderSPair, jstr]
        have hih := ih f rest (by simp only [List.length_cons] at h ⊢; omega)
        simp only [List.map_cons] at hih
        rw [hshape, step]
        simp [parseJStrTop_round, hih]

/-- Parsing a rendered JSON value recovers it. -/
theorem parseVal_round (v : JVal) (rest : Str) :
    parseVal (renderVal v ++ rest) = some (v, rest) := by
  cases v with
  | s s' =>
    have hshape : renderVal (JVal.s s') ++ rest
        = '"' :: (escapeStr s' ++ '"' :: rest) := by
      simp [renderVal, jstr]
    have step : ∀ r, parseVal ('"' :: r)
        = match parseJStrTop r with
          | some (s, r1) => some (JVal.s s, r1)
          | none => none := fun r => rfl
    rw [hshape, step, parseJStrTop_round s']
  | b bv =>
    cases bv with
    | false => rfl
    | true => rfl
  | o ps =>
    have hshape : renderVal (JVal.o ps) ++ rest
        = '{' :: (joinComma (ps.map renderSPair) ++ '}' :: rest) := by
      simp [renderVal, str]
    have step : ∀ r, parseVal ('{' :: r)
        = match parseSMembers (r.length + 1) r with
          | some (ps, r1) => some (JVal.o ps, r1)
          | none => none := fun r => rfl
    have hbound : ps.length
        < (joinComma (ps.map renderSPair) ++ '}' :: rest).length + 1 := by
      have hlen : (ps.map renderSPair).length
          ≤ (joinComma (ps.map renderSPair)).length := by
        apply joinComma_length
        intro x hx
        obtain ⟨p, _, hp⟩ := List.mem_map.1 hx
        exact hp ▸ renderSPair_length p
      simp only [List.length_map] at hlen
      simp only [List.length_append, List.length_cons]
      omega
    rw [hshape, step, parseSMembers_round ps _ rest hbound]

/-- Parsing the rendered members of the top-level object recovers them,
given enough fuel. -/
theorem parseMembers_round (ps : List (Str × JVal)) :
    ∀ (fuel : Nat) (rest : Str), ps.length < fuel →
    parseMembers fuel (joinComma (ps.map renderMember) ++ '}' :: rest)
      = some (ps, rest) := by
  induction ps with
  | nil =>
    intro fuel rest h
    cases fuel with
    | zero => omega
    | succ f => rfl
  | cons p t ih =>
    intro fuel rest h
    cases fuel with
    | zero => omega
    | succ f =>
      have step : ∀ r, parseMembers (f + 1) ('"' :: r)
          = match parseJStrTop r with
            | some (k, r1) =>
              (match r1 with
              | ':' :: r2 =>
                (match parseVal r2 with
                | some (v, r3) =>
                  (match r3 with
                  | ',' :: r4 =>
                    (match parseMembers f r4 with
                    | some (ps, r5) => some ((k, v) :: ps, r5)
                    | none => none)
                  | '}' :: r4 => some ([(k, v)], r4)
                  | _ => none)
                | none => none)
              | _ => none)
            | none => none := fun r => rfl
      cases t with
      | nil =>
        have hshape : joinComma ([p].map renderMember) ++ '}' :: rest
            = '"' :: (escapeStr p.1 ++ '"' :: ':' :: (renderVal p.2
              ++ '}' :: rest)) := by
          simp [joinComma, renderMember, jstr]
        rw [hshape, step]
        simp [parseJStrTop_round, parseVal_round]
      | cons q ts =>
        have hshape : joinComma ((p :: q :: ts).map renderMember) ++ '}' :: rest
            = '"' :: (escapeStr p.1 ++ '"' :: ':' :: (renderVal p.2
              ++ ',' :: (joinComma ((q :: ts).map renderMember)
                ++ '}' :: rest))) := by
          simp [joinComma, renderMember, jstr]
        have hih := ih f rest (by simp only [List.length_cons] at h ⊢; omega)
        simp only [List.map_cons] at hih
        rw [hshape, step]
        simp [parseJStrTop_round, parseVal_round, hih]

set_option maxHeartbeats 1600000 in
/-- Rebuilding a `navKeys` object from its serialized members is the
identity. -/
theorem navOfPairs_navToPairs (n : NavKeys) : navOfPairs (navToPairs n) = n := by
  obtain ⟨a, b, c, d⟩ := n
  cases a <;> cases b <;> cases c <;> cases d <;> rfl

set_option maxHeartbeats 4000000 in
/-- Rebuilding an options object from its serialized members is the
identity. -/
theorem ofPairs_toPairs (o : InspectorOptions) : ofPairs (toPairs o) = o := by
  obtain ⟨f1, f2, f3, f4, f5, f6, f7, f8⟩ := o
  cases f2 with
  | none =>
    cases f1 <;> cases f3 <;> cases f4 <;> cases f5 <;> cases f6 <;> cases f7
      <;> cases f8 <;> rfl
  | some n =>
    have key : ∀ (g1 : Option Str) (g3 : Option Str) (g4 : Option Bool)
        (g5 g6 : Option Str) (g7 : Option Bool) (g8 : Option Str),
        ofPairs (toPairs ⟨g1, some n, g3, g4, g5, g6, g7, g8⟩)
          = ⟨g1, some (navOfPairs (navToPairs n)), g3, g4, g5, g6, g7, g8⟩ := by
      intro g1 g3 g4 g5 g6 g7 g8
      cases g1 <;> cases g3 <;> cases g4 <;> cases g5 <;> cases g6 <;> cases g7
        <;> cases g8 <;> rfl
    rw [key f1 f3 f4 f5 f6 f7 f8, navOfPairs_navToPairs]

/-- Serialize-then-parse of the options payload is the identity. -/
theorem parse_stringify (o : InspectorOptions) :
    parseOptionsPayload (str "export default " ++ stringifyOptions o) = some o := by
  have hpre : (str "export default ").isPrefixOf
      (str "export default " ++ stringifyOptions o) = true :=
    List.isPrefixOf_iff_prefix.2 (List.prefix_append _ _)
  rw [parseOptionsPayload, if_pos hpre, List.drop_left]
  have hshape : stringifyOptions o
      = '{' :: (joinComma ((toPairs o).map renderMember) ++ '}' :: ([] : Str)) := by
    simp [stringifyOptions, str]
  have hbound : (toPairs o).length
      < (joinComma ((toPairs o).map renderMember) ++ '}' :: ([] : Str)).length + 1 := by
    have hlen : ((toPairs o).map renderMember).length
        ≤ (joinComma ((toPairs o).map renderMember)).length := by
      apply joinComma_length
      intro x hx
      obtain ⟨p, _, hp⟩ := List.mem_map.1 hx
      exact hp ▸ renderMember_length p
    simp only [List.length_map] at hlen
    simp only [List.length_append, List.length_cons]
    omega
  rw [hshape]
  show (match parseMembers ((joinComma ((toPairs o).map renderMember)
      ++ '}' :: ([] : Str)).length + 1)
      (joinComma ((toPairs o).map renderMember) ++ '}' :: ([] : Str)) with
    | some (ps, rest) => if rest.isEmpty then some (ofPairs ps) else none
    | none => none) = some o
  rw [parseMembers_round _ _ _ hbound]
  simp [ofPairs_toPairs]

/-- C4. For every configured (non-disabled) session and non-SSR context,
loading the options virtual id returns a source text whose JSON payload,
once parsed, equals the merged configuration object produced at
configuration time. -/
theorem c4_options_payload_roundtrip (isWin32 : Bool) (pluginPath : Str)
    (cfg : ResolvedConfig) (itf : Str → Str) (fsys : Str → Option Str)
    (h : (configResolved isWin32 pluginPath cfg).disabled = false) :
    ∃ o : InspectorOptions,
      (configResolved isWin32 pluginPath cfg).inspectorOptions = some o
      ∧ load (configResolved isWin32 pluginPath cfg) itf fsys
          (str "virtual:svelte-inspector-options") false
        = some (str "export default " ++ stringifyOptions o)
      ∧ parseOptionsPayload (str "export default " ++ stringifyOptions o) = some o := by
  cases hfind : cfg.plugins.find? (fun p => p.name = str "vite-plugin-svelte") with
  | none =>
    rw [configResolved, hfind] at h
    simp at h
  | some vps =>
    cases hni : vps.nvim_inspector with
    | none =>
      rw [configResolved, hfind] at h
      simp only [hni] at h
      simp at h
    | some u =>
      have hc : configResolved isWin32 pluginPath cfg
          = ⟨inspectorPathOf pluginPath, some (mergedOf isWin32 vps u),
              (mergedOf isWin32 vps u).appendTo, false⟩ := by
        simp only [configResolved, hfind, hni]
      rw [hc]
      refine ⟨mergedOf isWin32 vps u, rfl, ?_, parse_stringify _⟩
      simp [load]

/-- C4 witness: the round-trip at a concrete configured session. -/
theorem c4_witness :
    ∃ o : InspectorOptions,
      (configResolved false (str "/plug")
        ⟨[⟨str "vite-plugin-svelte", some emptyInspectorOptions, none⟩]⟩).inspectorOptions
        = some o
      ∧ load (configResolved false (str "/plug")
          ⟨[⟨str "vite-plugin-svelte", some emptyInspectorOptions, none⟩]⟩)
          (fun x => x) (fun _ => none)
          (str "virtual:svelte-inspector-options") false
        = some (str "export default " ++ stringifyOptions o)
      ∧ parseOptionsPayload (str "export default " ++ stringifyOptions o) = some o :=
  c4_options_payload_roundtrip false (str "/plug")
    ⟨[⟨str "vite-plugin-svelte", some emptyInspectorOptions, none⟩]⟩
    (fun x => x) (fun _ => none) rfl
